/-
Verification of the concurrency / caching / pipeline core of the
synthetic_math_prompts_agent repository.

Shallow embedding conventions:
  * Python ints are modelled as Nat (all quantities here are non-negative).
  * Python floats (timestamps, rates, temperatures) are modelled as exact
    rationals (Rat).  `int(x)` on a non-negative float is modelled as the
    rational floor; for the worker-count arithmetic (`int(c * 0.8)`,
    `int(c * 1.2)` with c ≤ a few hundred) the double-precision result and
    the exact rational result have the same floor, because the relative
    rounding error (~1e-16) never bridges the gap of 1/5 to the next
    integer.
  * Python dicts keyed by strings are modelled as association lists
    (List (String × ...)), with lookup returning the last binding to agree
    with repeated-insertion semantics; real dicts have unique keys, which
    appears as a Nodup hypothesis where it matters.
  * Fallible calls are modelled with Except; a raised exception is the
    .error case, carrying the message.
-/
import Mathlib

/-! ### AdaptiveThreadPool (src/core/orchestration/concurrent_processor.py) -/

/-- State of `AdaptiveThreadPool`: configuration fields fixed at `__init__`
plus the mutable counters.  `lastAdaptationTime` is a wall-clock rational. -/
structure AdaptiveThreadPool where
  minWorkers : Nat
  maxWorkers : Nat
  adaptationInterval : Nat
  targetSuccessRate : Rat
  currentWorkers : Nat
  completedTasks : Nat
  successfulTasks : Nat
  failedTasks : Nat
  lastAdaptationTime : Rat
  deriving Repr, DecidableEq

/-- `AdaptiveThreadPool.__init__(initial_workers, min_workers, max_workers,
adaptation_interval, target_success_rate)` at construction time `t0`. -/
def AdaptiveThreadPool.init (initialWorkers minW maxW interval : Nat)
    (targetRate : Rat) (t0 : Rat) : AdaptiveThreadPool :=
  { minWorkers := minW
    maxWorkers := maxW
    adaptationInterval := interval
    targetSuccessRate := targetRate
    currentWorkers := initialWorkers
    completedTasks := 0
    successfulTasks := 0
    failedTasks := 0
    lastAdaptationTime := t0 }

/-- `AdaptiveThreadPool._calculate_success_rate`. -/
def calculateSuccessRate (p : AdaptiveThreadPool) : Rat :=
  if p.completedTasks = 0 then 0
  else (p.successfulTasks : Rat) / (p.completedTasks : Rat)

/-- `AdaptiveThreadPool._should_adapt` evaluated at wall-clock `now`.
`completed_tasks % adaptation_interval == 0` is Nat mod (the interval is
the positive config value, default 10). -/
def shouldAdapt (p : AdaptiveThreadPool) (now : Rat) : Bool :=
  decide (0 < p.completedTasks) &&
  decide (p.completedTasks % p.adaptationInterval = 0) &&
  decide (now - p.lastAdaptationTime > 30)

/-- `AdaptiveThreadPool._adapt_worker_count`, returning the new worker
count.  `int(current * 0.8)` is `current * 4 / 5` and `int(current * 1.2)`
is `current * 6 / 5` in Nat (floor) arithmetic. -/
def adaptWorkerCount (p : AdaptiveThreadPool) : Nat :=
  let successRate := calculateSuccessRate p
  if successRate < p.targetSuccessRate * (1/2 : Rat) then
    max p.minWorkers (p.currentWorkers * 4 / 5)
  else if successRate > p.targetSuccessRate * (6/5 : Rat) then
    min p.maxWorkers (p.currentWorkers * 6 / 5)
  else
    p.currentWorkers

/-- `AdaptiveThreadPool.record_task_result`. -/
def recordTaskResult (p : AdaptiveThreadPool) (success : Bool) :
    AdaptiveThreadPool :=
  { p with
    completedTasks := p.completedTasks + 1
    successfulTasks := p.successfulTasks + (if success then 1 else 0)
    failedTasks := p.failedTasks + (if success then 0 else 1) }

/-- `AdaptiveThreadPool.get_current_workers` evaluated at wall-clock `now`:
returns the reported worker count and the updated pool state (adaptation
also refreshes `last_adaptation_time`). -/
def getCurrentWorkers (p : AdaptiveThreadPool) (now : Rat) :
    Nat × AdaptiveThreadPool :=
  if shouldAdapt p now then
    let n := adaptWorkerCount p
    (n, { p with currentWorkers := n, lastAdaptationTime := now })
  else
    (p.currentWorkers, p)

/-- The pool constructed by `ConcurrentProcessor.__init__` from the
configured `max_workers` value `w`:
`initial = w`, `min = max(2, w // 4)`, `max = min(50, w * 3)`. -/
def mkProcessorPool (w interval : Nat) (targetRate : Rat) (t0 : Rat) :
    AdaptiveThreadPool :=
  AdaptiveThreadPool.init w (max 2 (w / 4)) (min 50 (w * 3)) interval
    targetRate t0

/-- One externally visible pool interaction: a `record_task_result` call or
a `get_current_workers` call at some wall-clock time. -/
inductive PoolEvent where
  | record (success : Bool)
  | query (now : Rat)
  deriving Repr

/-- Effect of one event on the pool state. -/
def poolStep (p : AdaptiveThreadPool) : PoolEvent → AdaptiveThreadPool
  | .record s => recordTaskResult p s
  | .query now => (getCurrentWorkers p now).2

/-- Pool state after a sequence of events. -/
def poolRun (p : AdaptiveThreadPool) (es : List PoolEvent) :
    AdaptiveThreadPool :=
  es.foldl poolStep p

/-- All values returned by `get_current_workers` along an event sequence. -/
def poolOutputs (p : AdaptiveThreadPool) : List PoolEvent → List Nat
  | [] => []
  | .record s :: es => poolOutputs (recordTaskResult p s) es
  | .query now :: es =>
    let r := getCurrentWorkers p now
    r.1 :: poolOutputs r.2 es

/-- Bounds invariant on a pool state. -/
def poolInBounds (p : AdaptiveThreadPool) : Prop :=
  p.minWorkers ≤ p.currentWorkers ∧ p.currentWorkers ≤ p.maxWorkers

theorem adaptWorkerCount_inBounds (p : AdaptiveThreadPool)
    (h : poolInBounds p) :
    p.minWorkers ≤ adaptWorkerCount p ∧ adaptWorkerCount p ≤ p.maxWorkers := by
  obtain ⟨h1, h2⟩ := h
  have hshrink : p.currentWorkers * 4 / 5 ≤ p.currentWorkers := by
    have h5 : p.currentWorkers * 4 / 5 ≤ p.currentWorkers * 5 / 5 :=
      Nat.div_le_div_right (by omega)
    omega
  have hgrow : p.currentWorkers ≤ p.currentWorkers * 6 / 5 := by
    have h5 : p.currentWorkers * 5 / 5 ≤ p.currentWorkers * 6 / 5 :=
      Nat.div_le_div_right (by omega)
    omega
  unfold adaptWorkerCount
  dsimp only
  split
  · exact ⟨Nat.le_max_left _ _, max_le (h1.trans h2) (hshrink.trans h2)⟩
  · split
    · exact ⟨le_min (h1.trans h2) (h1.trans hgrow), min_le_left _ _⟩
    · exact ⟨h1, h2⟩

theorem poolStep_inBounds (p : AdaptiveThreadPool) (e : PoolEvent)
    (h : poolInBounds p) : poolInBounds (poolStep p e) := by
  cases e with
  | record s => exact h
  | query now =>
    unfold poolStep getCurrentWorkers
    dsimp only
    split
    · exact adaptWorkerCount_inBounds p h
    · exact h

theorem poolOutputs_bounded (p : AdaptiveThreadPool) (es : List PoolEvent)
    (h : poolInBounds p) :
    ∀ v ∈ poolOutputs p es, p.minWorkers ≤ v ∧ v ≤ p.maxWorkers := by
  induction es generalizing p with
  | nil => intro v hv; simp [poolOutputs] at hv
  | cons e es ih =>
    intro v hv
    cases e with
    | record s =>
      have := ih (recordTaskResult p s) h v (by simpa [poolOutputs] using hv)
      simpa [recordTaskResult] using this
    | query now =>
      simp only [poolOutputs] at hv
      rcases List.mem_cons.mp hv with h1 | h1
      · subst h1
        have hb := poolStep_inBounds p (.query now) h
        unfold poolStep at hb
        unfold getCurrentWorkers at hb ⊢
        dsimp only at hb ⊢
        split at hb <;> rename_i hs
        · simp only [hs, if_true]
          exact hb
        · simp only [hs, if_false]
          exact h
      · have hb := poolStep_inBounds p (.query now) h
        have := ih (getCurrentWorkers p now).2 (by simpa [poolStep] using hb)
          v h1
        have hmin : (getCurrentWorkers p now).2.minWorkers = p.minWorkers := by
          unfold getCurrentWorkers; dsimp only; split <;> rfl
        have hmax : (getCurrentWorkers p now).2.maxWorkers = p.maxWorkers := by
          unfold getCurrentWorkers; dsimp only; split <;> rfl
        rw [hmin, hmax] at this
        exact this

/-- C4 amended: for pools built by `ConcurrentProcessor` the bounds hold
whenever the configured `max_workers` lies in `[2, 50]` (so that the
initial worker count is itself within the derived bounds). -/
theorem processorPool_worker_bounds (w interval : Nat) (targetRate t0 : Rat)
    (hw : 2 ≤ w) (hw' : w ≤ 50) (es : List PoolEvent) :
    ∀ v ∈ poolOutputs (mkProcessorPool w interval targetRate t0) es,
      (mkProcessorPool w interval targetRate t0).minWorkers ≤ v ∧
      v ≤ (mkProcessorPool w interval targetRate t0).maxWorkers := by
  apply poolOutputs_bounded
  constructor
  · show max 2 (w / 4) ≤ w
    exact max_le hw (Nat.div_le_self _ _)
  · show w ≤ min 50 (w * 3)
    exact le_min hw' (by omega)

/-- Concrete pool state used to exercise the adaptation rule: 10 completed
tasks, all successful (rate 1), target rate 0.3, 6 current workers. -/
def growPool : AdaptiveThreadPool :=
  { minWorkers := 2
    maxWorkers := 30
    adaptationInterval := 10
    targetSuccessRate := 3/10
    currentWorkers := 6
    completedTasks := 10
    successfulTasks := 10
    failedTasks := 0
    lastAdaptationTime := 0 }

/-- C4, counterexample: with configured `max_workers = 1`,
`ConcurrentProcessor` builds a pool whose derived bounds are `[2, 3]` but
whose initial (and reported) worker count is 1, so
`min ≤ get_current_workers()` fails on the very first query. -/
theorem poolBounds_fail_at_one :
    (getCurrentWorkers (mkProcessorPool 1 10 (3/10) 0) 0).1 = 1 ∧
    (mkProcessorPool 1 10 (3/10) 0).minWorkers = 2 ∧
    ¬ ((mkProcessorPool 1 10 (3/10) 0).minWorkers ≤
        (getCurrentWorkers (mkProcessorPool 1 10 (3/10) 0) 0).1) := by
  decide

/-- C4 amended: for every pool built by `ConcurrentProcessor` from a
configured `max_workers` in `[2, 50]` (so that the initial count lies
within the derived bounds) and every sequence of `record_task_result` /
`get_current_workers` interactions, every value returned by
`get_current_workers` satisfies `min_workers ≤ value ≤ max_workers`. -/
theorem processorPoolWorkerBoundsInvariant (w interval : Nat)
    (targetRate t0 : Rat) (hw : 2 ≤ w) (hw' : w ≤ 50) (es : List PoolEvent)
    (v : Nat) (hv : v ∈ poolOutputs (mkProcessorPool w interval targetRate t0) es) :
    (mkProcessorPool w interval targetRate t0).minWorkers ≤ v ∧
    v ≤ (mkProcessorPool w interval targetRate t0).maxWorkers :=
  processorPool_worker_bounds w interval targetRate t0 hw hw' es v hv

/-- Witness for C4 at `max_workers = 10` and a three-event trace. -/
theorem processorPoolWorkerBoundsInvariant_witness :
    (mkProcessorPool 10 10 (3/10) 0).minWorkers ≤ 10 ∧
    10 ≤ (mkProcessorPool 10 10 (3/10) 0).maxWorkers :=
  processorPoolWorkerBoundsInvariant 10 10 (3/10) 0 (by decide) (by decide)
    [PoolEvent.query 0] 10 (by decide)

/-- C5, counterexample: in the grow branch the code computes
`int(current * 1.2)` (a floor), not a ceiling: at `current = 6` with
success rate 1 > 1.2 × 0.3 the new count is 7, while the claimed formula
`min(max, ceil(current × 1.2))` gives 8. -/
theorem adaptGrow_is_floor_not_ceil :
    calculateSuccessRate growPool > growPool.targetSuccessRate * (6/5 : Rat) ∧
    adaptWorkerCount growPool = 7 ∧
    min growPool.maxWorkers (Nat.ceil ((growPool.currentWorkers : Rat) * (6/5 : Rat))) = 8 ∧
    adaptWorkerCount growPool ≠
      min growPool.maxWorkers (Nat.ceil ((growPool.currentWorkers : Rat) * (6/5 : Rat))) := by
  have hadapt : adaptWorkerCount growPool = 7 := by
    norm_num [adaptWorkerCount, calculateSuccessRate, growPool]
  have hceil : min growPool.maxWorkers
      (Nat.ceil ((growPool.currentWorkers : Rat) * (6/5 : Rat))) = 8 := by
    have h8 : Nat.ceil ((growPool.currentWorkers : Rat) * (6/5 : Rat)) = 8 := by
      rw [show ((growPool.currentWorkers : Rat)) * (6/5 : Rat) = 36/5 by
        norm_num [growPool]]
      rw [Nat.ceil_eq_iff (by norm_num)]
      constructor <;> norm_num
    rw [h8]
    norm_num [growPool]
  refine ⟨?_, hadapt, hceil, ?_⟩
  · norm_num [calculateSuccessRate, growPool]
  · rw [hadapt, hceil]
    omega

/-- C5 amended: whenever the pool adapts with at least one completed task
and observed rate `succeeded / completed`: if `rate < 0.5 × targetRate` the
new count is `max(min_workers, floor(current × 0.8))`; otherwise if
`rate > 1.2 × targetRate` the new count is
`min(max_workers, floor(current × 1.2))` (floor, not ceiling); otherwise
the count is unchanged. -/
theorem adaptWorkerCountFormula (p : AdaptiveThreadPool)
    (h : 0 < p.completedTasks) :
    ((p.successfulTasks : Rat) / (p.completedTasks : Rat) <
        p.targetSuccessRate * (1/2 : Rat) →
      adaptWorkerCount p = max p.minWorkers (p.currentWorkers * 4 / 5)) ∧
    (¬ ((p.successfulTasks : Rat) / (p.completedTasks : Rat) <
        p.targetSuccessRate * (1/2 : Rat)) →
      (p.successfulTasks : Rat) / (p.completedTasks : Rat) >
        p.targetSuccessRate * (6/5 : Rat) →
      adaptWorkerCount p = min p.maxWorkers (p.currentWorkers * 6 / 5)) ∧
    (¬ ((p.successfulTasks : Rat) / (p.completedTasks : Rat) <
        p.targetSuccessRate * (1/2 : Rat)) →
      ¬ ((p.successfulTasks : Rat) / (p.completedTasks : Rat) >
        p.targetSuccessRate * (6/5 : Rat)) →
      adaptWorkerCount p = p.currentWorkers) := by
  have hrate : calculateSuccessRate p =
      (p.successfulTasks : Rat) / (p.completedTasks : Rat) := by
    unfold calculateSuccessRate
    rw [if_neg (by omega)]
  refine ⟨?_, ?_, ?_⟩
  · intro hlt
    unfold adaptWorkerCount
    rw [hrate, if_pos hlt]
  · intro hnlt hgt
    unfold adaptWorkerCount
    rw [hrate, if_neg hnlt, if_pos hgt]
  · intro hnlt hngt
    unfold adaptWorkerCount
    rw [hrate, if_neg hnlt, if_neg hngt]

/-- Witness for C5 at the concrete grow-branch pool state. -/
theorem adaptWorkerCountFormula_witness :
    adaptWorkerCount growPool =
      min growPool.maxWorkers (growPool.currentWorkers * 6 / 5) :=
  (adaptWorkerCountFormula growPool (by decide)).2.1
    (by norm_num [growPool]) (by norm_num [growPool])

/-! ### LLMCache (src/core/llm/llm_cache.py)

Responses are abstract payloads `α`.  `_generate_cache_key` is SHA-256
hashing of the normalized request; states are indexed directly by the key
strings it produces.  The in-memory dict of `(response, timestamp)` pairs
and the durable tier become association lists with unique keys,
`_access_order` a list of keys.  `if disk_response:` truthiness of a
response dict is modelled as presence (Python-falsy payloads out of
scope); disk I/O failures (the `except` in `_load_from_disk`) are not
modelled. -/

structure LLMCache (α : Type) where
  maxSize : Nat
  ttlSeconds : Rat
  cache : List (String × α × Rat)
  accessOrder : List String
  cacheEnabled : Bool
  persistentCache : Bool
  disk : List (String × α × Rat)

/-- Dict lookup (keys unique in real states). -/
def lookupEntry {α : Type} (l : List (String × α × Rat)) (k : String) :
    Option (α × Rat) :=
  (l.find? (fun e => e.1 == k)).map (fun e => e.2)

/-- `del d[k]`. -/
def removeKey {α : Type} (l : List (String × α × Rat)) (k : String) :
    List (String × α × Rat) :=
  l.filter (fun e => ¬ (e.1 == k))

/-- `d[k] = v` (position in the association list is irrelevant: lookups go
through `lookupEntry` and LRU order lives in `accessOrder`). -/
def setKey {α : Type} (l : List (String × α × Rat)) (k : String)
    (v : α × Rat) : List (String × α × Rat) :=
  removeKey l k ++ [(k, v)]

/-- `LLMCache._is_expired` at wall-clock `now`. -/
def isExpired {α : Type} (c : LLMCache α) (now ts : Rat) : Bool :=
  decide (now - ts > c.ttlSeconds)

/-- `LLMCache._evict_lru`. -/
def evictLRU {α : Type} (c : LLMCache α) : LLMCache α :=
  match c.accessOrder with
  | [] => c
  | lruKey :: rest =>
    { c with accessOrder := rest, cache := removeKey c.cache lruKey }

/-- `LLMCache._load_from_disk` at wall-clock `now`: the returned response
(if any) and the disk tier after any expiry unlink. -/
def loadFromDisk {α : Type} (c : LLMCache α) (k : String) (now : Rat) :
    Option α × List (String × α × Rat) :=
  if ¬ c.persistentCache then (none, c.disk)
  else
    match lookupEntry c.disk k with
    | none => (none, c.disk)
    | some (resp, ts) =>
      if isExpired c now ts then (none, removeKey c.disk k)
      else (some resp, c.disk)

/-- Tail of `LLMCache.get`: the persistent-storage check after a memory
miss, including re-insertion into memory with a fresh timestamp and the
possible LRU eviction. -/
def cacheGetDisk {α : Type} (c : LLMCache α) (k : String) (now : Rat) :
    Option α × LLMCache α :=
  match loadFromDisk c k now with
  | (some resp, disk1) =>
    let c1 := { c with
      disk := disk1
      cache := setKey c.cache k (resp, now)
      accessOrder := c.accessOrder ++ [k] }
    let c2 := if c1.cache.length > c1.maxSize then evictLRU c1 else c1
    (some resp, c2)
  | (none, disk1) => (none, { c with disk := disk1 })

/-- `LLMCache.get` at wall-clock `now`: returns the cached response (or
`none`) and the updated cache state. -/
def cacheGet {α : Type} (c : LLMCache α) (k : String) (now : Rat) :
    Option α × LLMCache α :=
  if ¬ c.cacheEnabled then (none, c)
  else
    match lookupEntry c.cache k with
    | some (resp, ts) =>
      if isExpired c now ts then
        let c1 := { c with
          cache := removeKey c.cache k
          accessOrder := c.accessOrder.erase k }
        cacheGetDisk c1 k now
      else
        (some resp,
          { c with accessOrder := c.accessOrder.erase k ++ [k] })
    | none => cacheGetDisk c k now

/-- `LLMCache.put` at wall-clock `now` (the disk write stamps the same
instant). -/
def cachePut {α : Type} (c : LLMCache α) (k : String) (resp : α)
    (now : Rat) : LLMCache α :=
  if ¬ c.cacheEnabled then c
  else
    let c1 := { c with
      cache := setKey c.cache k (resp, now)
      accessOrder := c.accessOrder.erase k ++ [k] }
    let c2 := if c1.cache.length > c1.maxSize then evictLRU c1 else c1
    if c2.persistentCache then
      { c2 with disk := setKey c2.disk k (resp, now) }
    else c2

theorem find?_removeKey_self {α : Type} (l : List (String × α × Rat))
    (k : String) :
    (removeKey l k).find? (fun e => e.1 == k) = none := by
  rw [List.find?_eq_none]
  intro x hx
  have hmem := List.mem_filter.mp hx
  simpa using hmem.2

theorem lookupEntry_removeKey {α : Type} (l : List (String × α × Rat))
    (k : String) : lookupEntry (removeKey l k) k = none := by
  rw [lookupEntry, find?_removeKey_self]
  rfl

theorem lookupEntry_setKey {α : Type} (l : List (String × α × Rat))
    (k : String) (v : α × Rat) : lookupEntry (setKey l k v) k = some v := by
  rw [lookupEntry, setKey, List.find?_append, find?_removeKey_self]
  simp

/-- Cache state used to exhibit the TTL boundary behavior: one entry
inserted at time 0, TTL 10 seconds, persistence disabled. -/
def boundaryCache : LLMCache Nat :=
  { maxSize := 1000
    ttlSeconds := 10
    cache := [("k", 42, 0)]
    accessOrder := ["k"]
    cacheEnabled := true
    persistentCache := false
    disk := [] }

/-- C7, counterexample: `_is_expired` uses a strict comparison
(`now - timestamp > ttl`), so a lookup exactly at the TTL boundary
(`now - insertedAt = ttl`) is still a hit, not a miss. -/
theorem cacheGet_boundary_hit :
    (10 : Rat) - 0 = boundaryCache.ttlSeconds ∧
    (cacheGet boundaryCache "k" 10).1 = some 42 ∧
    (cacheGet boundaryCache "k" 10).1 ≠ none := by
  refine ⟨by norm_num [boundaryCache], ?_, ?_⟩ <;>
    simp [cacheGet, boundaryCache, lookupEntry, isExpired]

/-- C7 amended: an entry is valid only while `now - insertedAt ≤ ttl`; a
lookup strictly past the TTL boundary is a miss (returns `None`) and
removes the expired entry from the in-memory map and from the
access-order list (when the durable tier is disabled). -/
theorem cacheGetExpiredMiss {α : Type} (c : LLMCache α) (k : String)
    (resp : α) (ts now : Rat)
    (hen : c.cacheEnabled = true)
    (hpc : c.persistentCache = false)
    (hm : lookupEntry c.cache k = some (resp, ts))
    (hexp : now - ts > c.ttlSeconds)
    (hnd : c.accessOrder.Nodup) :
    (cacheGet c k now).1 = none ∧
    lookupEntry (cacheGet c k now).2.cache k = none ∧
    k ∉ (cacheGet c k now).2.accessOrder := by
  have hstep : cacheGet c k now =
      (none, { c with
        cache := removeKey c.cache k
        accessOrder := c.accessOrder.erase k }) := by
    rw [cacheGet, if_neg (by simp [hen]), hm]
    dsimp only
    rw [if_pos (show isExpired c now ts = true by simp [isExpired, hexp])]
    rw [cacheGetDisk, loadFromDisk, if_pos (by simp [hpc])]
  rw [hstep]
  refine ⟨rfl, lookupEntry_removeKey _ _, ?_⟩
  exact hnd.not_mem_erase

/-- Concrete expired-entry state for the C7 witness: entry inserted at
time 0, TTL 10, lookup at time 11. -/
def expiredCache : LLMCache Nat :=
  { maxSize := 1000
    ttlSeconds := 10
    cache := [("k", 42, 0)]
    accessOrder := ["k"]
    cacheEnabled := true
    persistentCache := false
    disk := [] }

/-- Witness for C7 at the concrete expired state. -/
theorem cacheGetExpiredMiss_witness :
    (cacheGet expiredCache "k" 11).1 = none ∧
    lookupEntry (cacheGet expiredCache "k" 11).2.cache "k" = none ∧
    "k" ∉ (cacheGet expiredCache "k" 11).2.accessOrder :=
  cacheGetExpiredMiss expiredCache "k" 42 0 11 rfl rfl
    (by simp [expiredCache, lookupEntry]) (by norm_num [expiredCache])
    (by simp [expiredCache])

theorem cacheGet_mem_hit {α : Type} (c : LLMCache α) (k : String)
    (resp : α) (ts now : Rat)
    (hen : c.cacheEnabled = true)
    (hm : lookupEntry c.cache k = some (resp, ts))
    (hfresh : ¬ (now - ts > c.ttlSeconds)) :
    (cacheGet c k now).1 = some resp := by
  rw [cacheGet, if_neg (by simp [hen]), hm]
  dsimp only
  rw [if_neg (show ¬ isExpired c now ts = true by simp [isExpired, hfresh])]

/-- C10: on a memory miss served from the durable tier, `get` re-inserts
the disk entry into the in-memory map stamped with the load time `now1`
(not the original disk insertion time `tsD`), leaves the disk timestamp
untouched, and a later memory lookup stays a hit while
`now2 - now1 ≤ ttl` — so an entry first written at `tsD` can be served
from memory up to `tsD + 2 × ttl` (disk expiry is checked against `tsD`,
memory expiry against the reload time `now1`). -/
theorem diskReloadFreshTimestamp {α : Type} (c : LLMCache α) (k : String)
    (resp : α) (tsD now1 now2 : Rat)
    (hen : c.cacheEnabled = true)
    (hpc : c.persistentCache = true)
    (hmem : lookupEntry c.cache k = none)
    (hdisk : lookupEntry c.disk k = some (resp, tsD))
    (hfresh : ¬ (now1 - tsD > c.ttlSeconds))
    (hsize : c.cache.length + 1 ≤ c.maxSize)
    (hnow2 : ¬ (now2 - now1 > c.ttlSeconds)) :
    (cacheGet c k now1).1 = some resp ∧
    lookupEntry (cacheGet c k now1).2.cache k = some (resp, now1) ∧
    lookupEntry (cacheGet c k now1).2.disk k = some (resp, tsD) ∧
    (cacheGet (cacheGet c k now1).2 k now2).1 = some resp := by
  have hlen : ¬ ((setKey c.cache k (resp, now1)).length > c.maxSize) := by
    simp only [setKey, List.length_append, List.length_cons,
      List.length_nil, Nat.not_lt]
    have hfl : (removeKey c.cache k).length ≤ c.cache.length :=
      List.length_filter_le _ _
    omega
  have hstep : cacheGet c k now1 =
      (some resp, { c with
        cache := setKey c.cache k (resp, now1)
        accessOrder := c.accessOrder ++ [k] }) := by
    rw [cacheGet, if_neg (by simp [hen]), hmem]
    dsimp only
    rw [cacheGetDisk, loadFromDisk]
    rw [if_neg (show ¬ (¬ c.persistentCache = true) by simp [hpc]), hdisk]
    dsimp only
    rw [if_neg (show ¬ isExpired c now1 tsD = true by
      simp [isExpired, hfresh])]
    dsimp only
    rw [if_neg hlen]
  refine ⟨?_, ?_, ?_, ?_⟩
  · rw [hstep]
  · rw [hstep]
    exact lookupEntry_setKey _ _ _
  · rw [hstep]
    exact hdisk
  · exact cacheGet_mem_hit _ k resp now1 now2
      (by rw [hstep]; exact hen)
      (by rw [hstep]; exact lookupEntry_setKey _ _ _)
      (by rw [hstep]; exact hnow2)

/-- Concrete C10 witness state: durable tier holds an entry written at
time 0 with TTL 10; memory is empty. -/
def reloadCache : LLMCache Nat :=
  { maxSize := 2
    ttlSeconds := 10
    cache := []
    accessOrder := []
    cacheEnabled := true
    persistentCache := true
    disk := [("k", 7, 0)] }

/-- Witness for C10: reload from disk at time 10 (= TTL boundary) and a
memory hit at time 20 = 0 + 2 × TTL. -/
theorem diskReloadFreshTimestamp_witness :
    (cacheGet reloadCache "k" 10).1 = some 7 ∧
    lookupEntry (cacheGet reloadCache "k" 10).2.cache "k" = some (7, 10) ∧
    lookupEntry (cacheGet reloadCache "k" 10).2.disk "k" = some (7, 0) ∧
    (cacheGet (cacheGet reloadCache "k" 10).2 "k" 20).1 = some 7 :=
  diskReloadFreshTimestamp reloadCache "k" 7 0 10 20 rfl rfl
    (by simp [reloadCache, lookupEntry])
    (by simp [reloadCache, lookupEntry])
    (by norm_num [reloadCache])
    (by simp [reloadCache])
    (by norm_num [reloadCache])

/-! ### LLMClient.call_model retry wrapper (src/core/llm/llm_client.py)

The provider call (`_call_openai` / `_call_gemini` / `_call_deepseek`) is
an oracle `Nat → Except String α` giving, for each 0-based attempt index,
either the provider payload or the raised exception's message.  The
wrapper's observable behavior is the final result, the number of provider
invocations made, and the sequence of back-off sleeps. -/

/-- The terminal `APIError` raised after exhausting all retries: it
reports the configured attempt budget and `str(last_exception)`. -/
structure APIError where
  maxRetries : Nat
  lastException : Option String
  deriving Repr, DecidableEq

/-- Observable trace of one `call_model` invocation: the returned value
(paired with the 1-based `attempt` field stamped into the result dict) or
the terminal error, the number of provider invocations, and the sleep
durations in order. -/
structure CallTrace (α : Type) where
  result : Except APIError (α × Nat)
  invocations : Nat
  sleeps : List Rat

/-- `base_sleep * 0.1 * (hash(str(thread_id)) % 10) / 10`: the jitter for
attempt index `i`, with `j = hash(str(thread_id)) % 10`. -/
def jitterOf (retryDelay : Rat) (j i : Nat) : Rat :=
  retryDelay * 2 ^ i * (1/10 : Rat) * ((j : Rat) / 10)

/-- The retry loop of `LLMClient.call_model`: `remaining` attempts left,
`i` the 0-based index of the next attempt, `lastExc` the last exception
message seen. -/
def callModelGo {α : Type} (oracle : Nat → Except String α)
    (maxRetries : Nat) (retryDelay : Rat) (j : Nat) :
    Nat → Nat → Option String → CallTrace α
  | 0, _, lastExc =>
    { result := .error { maxRetries := maxRetries, lastException := lastExc }
      invocations := 0
      sleeps := [] }
  | remaining + 1, i, _ =>
    match oracle i with
    | .ok v =>
      { result := .ok (v, i + 1), invocations := 1, sleeps := [] }
    | .error e =>
      let rest := callModelGo oracle maxRetries retryDelay j remaining
        (i + 1) (some e)
      if i < maxRetries - 1 then
        { result := rest.result
          invocations := rest.invocations + 1
          sleeps := (retryDelay * 2 ^ i + jitterOf retryDelay j i) ::
            rest.sleeps }
      else
        { result := rest.result
          invocations := rest.invocations + 1
          sleeps := rest.sleeps }

/-- `LLMClient.call_model` with `max_retries` and `retry_delay`, for a
thread whose jitter residue is `j`. -/
def callModel {α : Type} (oracle : Nat → Except String α)
    (maxRetries : Nat) (retryDelay : Rat) (j : Nat) : CallTrace α :=
  callModelGo oracle maxRetries retryDelay j maxRetries 0 none

theorem callModelGo_spec {α : Type} (oracle : Nat → Except String α)
    (mr : Nat) (rd : Rat) (j : Nat) :
    ∀ (remaining i : Nat) (lastExc : Option String), i + remaining = mr →
      (callModelGo oracle mr rd j remaining i lastExc).invocations ≤
        remaining ∧
      (callModelGo oracle mr rd j remaining i lastExc).sleeps =
        (List.range
          ((callModelGo oracle mr rd j remaining i lastExc).invocations - 1)).map
          (fun s => rd * 2 ^ (i + s) + jitterOf rd j (i + s)) ∧
      ((∀ s, s < remaining → ∃ e, oracle (i + s) = .error e) →
        ∃ ae, (callModelGo oracle mr rd j remaining i lastExc).result =
          .error ae ∧ ae.maxRetries = mr) := by
  intro remaining
  induction remaining with
  | zero =>
    intro i lastExc hi
    refine ⟨Nat.le_refl _, by simp [callModelGo], ?_⟩
    intro _
    exact ⟨{ maxRetries := mr, lastException := lastExc }, rfl, rfl⟩
  | succ rem ih =>
    intro i lastExc hi
    have hi1 : (i + 1) + rem = mr := by omega
    cases ho : oracle i with
    | ok v =>
      refine ⟨?_, ?_, ?_⟩
      · simp only [callModelGo, ho]
        omega
      · simp [callModelGo, ho]
      · intro hall
        exfalso
        obtain ⟨e, he⟩ := hall 0 (by omega)
        rw [Nat.add_zero, ho] at he
        cases he
    | error e =>
      obtain ⟨ihInv, ihSleeps, ihErr⟩ := ih (i + 1) (some e) hi1
      by_cases hlt : i < mr - 1
      · have hrem : 1 ≤ rem := by omega
        have hinv1 : 1 ≤ (callModelGo oracle mr rd j rem (i + 1)
            (some e)).invocations := by
          cases hr : rem with
          | zero => omega
          | succ rem2 =>
            cases ho2 : oracle (i + 1) with
            | ok v2 => simp [callModelGo, ho2]
            | error e2 =>
              simp only [callModelGo, ho2]
              split <;> simp
        refine ⟨?_, ?_, ?_⟩
        · simp only [callModelGo, ho, if_pos hlt]
          omega
        · simp only [callModelGo, ho, if_pos hlt]
          obtain ⟨n, hn⟩ : ∃ n, (callModelGo oracle mr rd j rem (i + 1)
              (some e)).invocations = n + 1 := ⟨_, (by omega :
                (callModelGo oracle mr rd j rem (i + 1) (some e)).invocations
                = ((callModelGo oracle mr rd j rem (i + 1)
                  (some e)).invocations - 1) + 1)⟩
          rw [ihSleeps, hn]
          simp only [Nat.add_sub_cancel]
          rw [List.range_succ_eq_map]
          simp only [List.map_cons, List.map_map, Nat.add_zero]
          congr 1
          apply List.map_congr_left
          intro s _
          simp only [Function.comp_apply]
          rw [show i + 1 + s = i + Nat.succ s by omega]
        · intro hall
          simp only [callModelGo, ho, if_pos hlt]
          exact ihErr (fun s hs => by
            have := hall (s + 1) (by omega)
            rw [show i + (s + 1) = i + 1 + s by omega] at this
            exact this)
      · have hrem0 : rem = 0 := by omega
        subst hrem0
        refine ⟨?_, ?_, ?_⟩
        · simp [callModelGo, ho, if_neg hlt]
        · simp [callModelGo, ho, if_neg hlt]
        · intro _
          simp only [callModelGo, ho, if_neg hlt]
          exact ⟨{ maxRetries := mr, lastException := some e }, rfl, rfl⟩

/-- C8: `call_model` makes at most `max_retries` provider invocations; the
sleeps between consecutive failed attempts follow exponential backoff
`retry_delay × 2^attempt` plus the thread-identity jitter; and if every
attempt fails, the call terminates with an `APIError` reporting the
configured budget (it never returns a failure value). -/
theorem callModelRetryPolicy {α : Type} (oracle : Nat → Except String α)
    (mr : Nat) (rd : Rat) (j : Nat) :
    (callModel oracle mr rd j).invocations ≤ mr ∧
    (callModel oracle mr rd j).sleeps =
      (List.range ((callModel oracle mr rd j).invocations - 1)).map
        (fun s => rd * 2 ^ s + jitterOf rd j s) ∧
    ((∀ s, s < mr → ∃ e, oracle s = .error e) →
      ∃ ae, (callModel oracle mr rd j).result = .error ae ∧
        ae.maxRetries = mr) := by
  obtain ⟨h1, h2, h3⟩ := callModelGo_spec oracle mr rd j mr 0 none (by omega)
  refine ⟨h1, ?_, ?_⟩
  · rw [callModel, h2]
    apply List.map_congr_left
    intro s _
    rw [Nat.zero_add]
  · intro hall
    exact h3 (fun s hs => by rw [Nat.zero_add]; exact hall s hs)

/-- Witness for C8: three attempts that all fail, `retry_delay = 1`,
jitter residue 5. -/
theorem callModelRetryPolicy_witness :
    (callModel (fun _ => (.error "boom" : Except String Nat)) 3 1 5).invocations ≤ 3 ∧
    (callModel (fun _ => (.error "boom" : Except String Nat)) 3 1 5).sleeps =
      (List.range ((callModel (fun _ => (.error "boom" : Except String Nat))
        3 1 5).invocations - 1)).map
        (fun s => 1 * 2 ^ s + jitterOf 1 5 s) ∧
    ∃ ae, (callModel (fun _ => (.error "boom" : Except String Nat))
        3 1 5).result = .error ae ∧ ae.maxRetries = 3 := by
  obtain ⟨h1, h2, h3⟩ := callModelRetryPolicy
    (fun _ => (.error "boom" : Except String Nat)) 3 1 5
  exact ⟨h1, h2, h3 (fun s _ => ⟨"boom", rfl⟩)⟩

/-! ### CheckerAgent.validate (src/core/agents.py)

The LLM call plus `safe_json_parse` plus the `"valid" in parsed_result`
structural check are one oracle producing `ParsedChecker` (or an
exception); `verify_with_cas` is a second oracle.  The CAS override block
sits in its own `try`, so a CAS failure leaves the LLM verdict unchanged. -/

/-- Parsed checker-model JSON after `safe_json_parse` and the structural
check that `"valid"` is present. -/
structure ParsedChecker where
  valid : Bool
  reason : Option String
  equivalenceConfidence : Option Rat
  correctedHints : List (String × String)
  deriving Repr, DecidableEq

/-- Result dict of `verify_with_cas` (fields read with `.get`). -/
structure CasOut where
  verified : Option Bool
  confidence : Option Rat
  reason : String
  deriving Repr, DecidableEq

/-- Validation mode argument of `CheckerAgent.validate`. -/
inductive CheckMode where
  | initial
  | equivalenceCheck
  deriving Repr, DecidableEq

/-- The dict returned by `CheckerAgent.validate` (the token/cost fields
are dropped; they do not influence control flow). -/
structure CheckerOut where
  valid : Bool
  reason : String
  correctedHints : List (String × String)
  equivalenceConfidence : Rat
  deriving Repr, DecidableEq

/-- The verdict portion of `CheckerAgent.validate` after parsing: initial
mode returns the LLM verdict; equivalence mode applies the CAS
confidence-weighted override (confidence > 0.8 with a definite CAS
verdict that contradicts the LLM flips the verdict). -/
def checkerValidate (mode : CheckMode) (parsed : ParsedChecker)
    (cas : Except String CasOut) : CheckerOut :=
  let isValid := parsed.valid
  let reason := parsed.reason.getD "No reason provided"
  let conf := parsed.equivalenceConfidence.getD 0
  let base : CheckerOut :=
    { valid := isValid, reason := reason
      correctedHints := parsed.correctedHints
      equivalenceConfidence := conf }
  match mode with
  | .initial => base
  | .equivalenceCheck =>
    match cas with
    | .error _ => base
    | .ok c =>
      if c.verified = some true ∧ c.confidence.getD 0 > (8/10 : Rat) then
        if isValid = false then
          { valid := true
            reason := "CAS verification: " ++ c.reason ++ " (LLM disagreed)"
            correctedHints := parsed.correctedHints
            equivalenceConfidence := max conf (c.confidence.getD (9/10)) }
        else base
      else if c.verified = some false ∧ c.confidence.getD 0 > (8/10 : Rat) then
        if isValid = true then
          { valid := false
            reason := "CAS verification: " ++ c.reason ++ " (LLM disagreed)"
            correctedHints := parsed.correctedHints
            equivalenceConfidence := min conf (1 - c.confidence.getD (9/10)) }
        else base
      else base

/-- `validate` in initial mode (no CAS verification is attempted). -/
def checkerValidateInitial (parsed : ParsedChecker) : CheckerOut :=
  checkerValidate .initial parsed (.error "unused")

/-! ### _generate_and_validate_prompt
(src/core/orchestration/generate_batch.py)

Each external call is an oracle in `PipeEnv`; `.error` is a raised
exception carrying `str(e)`.  `safe_log_cost` swallows its own exceptions
and does not influence control flow, so it is not modelled.  Exceptions
raised inside the `try` are routed to the `except` clause together with
the values of the `subject` / `topic` locals at the point of the raise
(the non-seed selection is split into two oracles to represent a raise
happening after `subject` was bound but before `topic` was). -/

/-- Output dict of a successful `call_engineer`. -/
structure EngineerOut where
  problem : String
  answer : String
  hints : List (String × String)
  deriving Repr, DecidableEq

/-- A seed problem drawn from the seed pool. -/
structure SeedProblem where
  problem : String
  answer : Option String
  tag : String
  sourceId : String
  deriving Repr, DecidableEq

/-- The configuration keys of `config` that steer
`_generate_and_validate_prompt`. -/
structure PipeConfig where
  useSeedData : Bool
  benchmarkName : String
  enablePrefiltering : Bool
  useSearch : Bool
  deriving Repr, DecidableEq

/-- Oracles for every external effect of one attempt. -/
structure PipeEnv where
  preTry : Except String Unit
  seedChoice : Except String SeedProblem
  classify : Except String (Option String × Option String)
  selectSubject : Except String (Option String)
  selectTopic : Except String (Option String)
  engineer : Except String EngineerOut
  checkerInitialParsed : Except String ParsedChecker
  target : Except String String
  finalParsed : Except String ParsedChecker
  finalCas : Except String CasOut
  similarity : Except String Rat

/-- The accumulated per-attempt `core` dict (plus the extra keys the
various return points add). -/
structure AttemptData where
  subject : Option String
  topic : Option String
  problem : Option String
  answer : Option String
  hints : List (String × String)
  reference : Option String
  benchmarkName : Option String
  sourceSeed : Option String
  hintsWereCorrected : Option Bool
  targetModelAnswer : Option String
  similarityScore : Option (Option Rat)
  rejectionReason : Option String
  errorMsg : Option String
  deriving Repr, DecidableEq

/-- The empty attempt record. -/
def AttemptData.empty : AttemptData :=
  { subject := none, topic := none, problem := none, answer := none
    hints := [], reference := none, benchmarkName := none
    sourceSeed := none, hintsWereCorrected := none
    targetModelAnswer := none, similarityScore := none
    rejectionReason := none, errorMsg := none }

/-- Python `str.strip()`: drop leading and trailing whitespace. -/
def pyStrip (s : String) : String :=
  String.mk
    (((s.data.dropWhile Char.isWhitespace).reverse.dropWhile
      Char.isWhitespace).reverse)

/-- `core["hints_were_corrected"] = bool(ch) and isinstance(ch, dict) and
any(h.strip() for h in ch.values())`: true iff the correction dict is
non-empty and some corrected value has non-whitespace content. -/
def hintsCorrectedFlag (correctedHints : List (String × String)) : Bool :=
  !correctedHints.isEmpty &&
    correctedHints.any (fun kv => !(pyStrip kv.2 == ""))

/-- `core["hints"][idx] = revised` at an existing index. -/
def setHint (h : List (String × String)) (k v : String) :
    List (String × String) :=
  h.map (fun kv => if kv.1 == k then (k, v) else kv)

/-- The hint-correction loop: overwrite exactly the indices of the
correction map that already exist in `core["hints"]`; unknown indices are
only warned about. -/
def mergeHints (hints correctedHints : List (String × String)) :
    List (String × String) :=
  correctedHints.foldl
    (fun h kv =>
      if (h.map Prod.fst).contains kv.1 then setHint h kv.1 kv.2 else h)
    hints

/-- Dict lookup on a hints map. -/
def hintLookup (h : List (String × String)) (k : String) : Option String :=
  (h.find? (fun kv => kv.1 == k)).map (fun kv => kv.2)

/-- Python truthiness test `not x` for an optional string local. -/
def optFalsy (o : Option String) : Bool :=
  match o with
  | none => true
  | some s => s == ""

/-- `needle in haystack` on strings. -/
def containsSubstr (haystack needle : String) : Bool :=
  decide ((haystack.splitOn needle).length > 1)

/-- The `easy_topics` table of `_is_problem_too_easy`. -/
def easyTopics : List (String × List String) :=
  [("arithmetic", ["addition", "subtraction", "basic multiplication"]),
   ("algebra", ["linear equations with one variable"]),
   ("geometry", ["area of rectangle", "perimeter of square"])]

/-- `_is_problem_too_easy(subject, topic)`; calling it with a `None`
subject or topic raises (`.lower()` on `None`). -/
def isProblemTooEasy (subject topic : Option String) :
    Except String Bool :=
  match subject, topic with
  | some s, some t =>
    .ok (easyTopics.any (fun p =>
      containsSubstr s.toLower p.1 &&
      p.2.any (fun et => containsSubstr t.toLower et)))
  | _, _ => .error "AttributeError: NoneType has no attribute lower"

/-- The result tags produced by one attempt
(`_process_single_task` values). -/
inductive RTag where
  | accepted
  | discarded
  | error
  | stopped
  deriving Repr, DecidableEq

/-- An exception inside the `try` of `_generate_and_validate_prompt`:
message plus the `subject` / `topic` locals at the raise point. -/
abbrev TryErr := String × Option String × Option String

/-- Steps 1-5 of `_generate_and_validate_prompt` (from the Engineer call
on), once subject/topic are settled.  The second component records
whether `call_target_model` was invoked. -/
def afterSelect (cfg : PipeConfig) (env : PipeEnv)
    (subject topic : Option String) (seed : Option SeedProblem) :
    Except TryErr (RTag × AttemptData) × Bool :=
  match env.engineer with
  | .error m => (.error (m, subject, topic), false)
  | .ok eng =>
    let core0 : AttemptData := { AttemptData.empty with
      subject := subject, topic := topic
      problem := some eng.problem, answer := some eng.answer
      hints := eng.hints
      reference := seed.map (fun sp => sp.tag ++ ":" ++ sp.sourceId)
      benchmarkName := seed.map (fun _ => cfg.benchmarkName)
      sourceSeed := seed.map (fun sp => sp.problem) }
    match env.checkerInitialParsed with
    | .error m => (.error (m, subject, topic), false)
    | .ok parsed =>
      let checkerResult := checkerValidateInitial parsed
      let correctedHints := checkerResult.correctedHints
      let core1 := { core0 with
        hintsWereCorrected := some (hintsCorrectedFlag correctedHints) }
      if checkerResult.valid = false then
        (.ok (.discarded,
          { core1 with rejectionReason := some checkerResult.reason }),
          false)
      else
        let core2 := if correctedHints.isEmpty then core1
          else { core1 with
            hints := mergeHints core1.hints correctedHints }
        match env.target with
        | .error m => (.error (m, subject, topic), true)
        | .ok targetOutput =>
          let core3 := { core2 with
            targetModelAnswer := some targetOutput }
          match env.finalParsed with
          | .error m => (.error (m, subject, topic), true)
          | .ok fparsed =>
            let finalCheck :=
              checkerValidate .equivalenceCheck fparsed env.finalCas
            if finalCheck.valid = false then
              if cfg.useSearch then
                match env.similarity with
                | .ok score =>
                  (.ok (.accepted,
                    { core3 with similarityScore := some (some score) }),
                    true)
                | .error _ =>
                  (.ok (.accepted,
                    { core3 with similarityScore := some none }), true)
              else (.ok (.accepted, core3), true)
            else
              (.ok (.discarded,
                { core3 with
                  rejectionReason := some "Target model solved correctly" }),
                true)

/-- The body of the `try` in `_generate_and_validate_prompt`: seed-mode
classification or taxonomy selection with optional pre-filtering, then
the four pipeline stages. -/
def pipeBody (cfg : PipeConfig) (env : PipeEnv) :
    Except TryErr (RTag × AttemptData) × Bool :=
  if cfg.useSeedData then
    match env.seedChoice with
    | .error m => (.error (m, none, none), false)
    | .ok sp =>
      match env.classify with
      | .error m => (.error (m, none, none), false)
      | .ok (subj, top) =>
        if optFalsy subj || optFalsy top then
          (.ok (.discarded, { AttemptData.empty with
            problem := some sp.problem
            answer := some (sp.answer.getD "")
            rejectionReason :=
              some "Subject/topic classification failed" }), false)
        else afterSelect cfg env subj top (some sp)
  else
    match env.selectSubject with
    | .error m => (.error (m, none, none), false)
    | .ok subj =>
      match env.selectTopic with
      | .error m => (.error (m, subj, none), false)
      | .ok top =>
        if cfg.enablePrefiltering then
          match isProblemTooEasy subj top with
          | .error m => (.error (m, subj, top), false)
          | .ok true =>
            (.ok (.discarded, { AttemptData.empty with
              subject := subj, topic := top
              rejectionReason := some "Pre-filtered as too easy" }), false)
          | .ok false => afterSelect cfg env subj top none
        else afterSelect cfg env subj top none

/-- `_generate_and_validate_prompt` as seen by its caller: the pre-`try`
section (performance monitor, config reads, curriculum construction) may
raise and the exception escapes; inside the `try`, every exception is
converted by the `except` clause into an `(RTag.error, {...})` result
carrying the message and the subject/topic bound at the raise point. -/
def generateAndValidatePrompt (cfg : PipeConfig) (env : PipeEnv) :
    Except String (RTag × AttemptData) × Bool :=
  match env.preTry with
  | .error m => (.error m, false)
  | .ok _ =>
    match pipeBody cfg env with
    | (.ok r, tc) => (.ok r, tc)
    | (.error (m, subj, top), tc) =>
      (.ok (.error, { AttemptData.empty with
        subject := subj, topic := top, errorMsg := some m }), tc)

/-- The `data` payload of a `_process_single_task` result. -/
inductive TaskData where
  | attempt (d : AttemptData)
  | taskError (msg : String) (attemptNumber : Nat)
  | stopInfo (reason : String)
  deriving Repr, DecidableEq

/-- `ConcurrentProcessor._process_single_task`: checks the stop signal,
runs the task, and converts any exception the task raised into an
`("error", ...)` result; it never lets an exception escape (its own
return type is a plain triple). -/
def processSingleTask (stop : Bool)
    (task : Except String (RTag × AttemptData)) (attemptNum : Nat) :
    RTag × TaskData × Nat :=
  if stop then
    (.stopped, .stopInfo "Stop signal received", attemptNum)
  else
    match task with
    | .ok (rt, d) => (rt, .attempt d, attemptNum)
    | .error e => (.error, .taskError e attemptNum, attemptNum)

theorem setHint_keys (h : List (String × String)) (k v : String) :
    (setHint h k v).map Prod.fst = h.map Prod.fst := by
  unfold setHint
  rw [List.map_map]
  apply List.map_congr_left
  intro kv _
  simp only [Function.comp_apply]
  split
  · rename_i hc
    simp only [beq_iff_eq] at hc
    exact hc.symm
  · rfl

theorem mergeHints_cons (h kv rest) :
    mergeHints h (kv :: rest) =
      mergeHints
        (if (h.map Prod.fst).contains kv.1 then setHint h kv.1 kv.2 else h)
        rest := rfl

theorem mergeHints_keys (c h : List (String × String)) :
    (mergeHints h c).map Prod.fst = h.map Prod.fst := by
  induction c generalizing h with
  | nil => rfl
  | cons kv rest ih =>
    rw [mergeHints_cons, ih]
    split
    · exact setHint_keys h kv.1 kv.2
    · rfl

theorem hintLookup_setHint_of_ne (h : List (String × String))
    (k v k' : String) (hne : k' ≠ k) :
    hintLookup (setHint h k v) k' = hintLookup h k' := by
  induction h with
  | nil => rfl
  | cons kv t ih =>
    unfold setHint hintLookup at *
    rw [List.map_cons, List.find?_cons, List.find?_cons]
    by_cases h0 : kv.1 = k
    · rw [if_pos (by simp [h0])]
      have hk : (k == k') = false := by simp [Ne.symm hne]
      have hk0 : (kv.1 == k') = false := by
        simp [h0, Ne.symm hne]
      rw [hk, hk0]
      exact ih
    · rw [if_neg (by simp [h0])]
      by_cases h1 : kv.1 = k'
      · rw [show (kv.1 == k') = true by simp [h1]]
      · rw [show (kv.1 == k') = false by simp [h1]]
        exact ih

theorem hintLookup_setHint_self (h : List (String × String)) (k v : String)
    (hmem : k ∈ h.map Prod.fst) :
    hintLookup (setHint h k v) k = some v := by
  induction h with
  | nil => simp at hmem
  | cons kv t ih =>
    unfold setHint hintLookup at *
    rw [List.map_cons, List.find?_cons]
    by_cases h0 : kv.1 = k
    · rw [if_pos (by simp [h0])]
      simp
    · rw [if_neg (by simp [h0])]
      rw [show (kv.1 == k) = false by simp [h0]]
      apply ih
      rw [List.map_cons] at hmem
      rcases List.mem_cons.mp hmem with h1 | h1
      · exact absurd h1.symm h0
      · exact h1

theorem hintLookup_mergeHints_not_mem (c h : List (String × String))
    (k : String) (hk : k ∉ c.map Prod.fst) :
    hintLookup (mergeHints h c) k = hintLookup h k := by
  induction c generalizing h with
  | nil => rfl
  | cons kv rest ih =>
    simp only [List.map_cons, List.mem_cons, not_or] at hk
    rw [mergeHints_cons, ih _ hk.2]
    split
    · exact hintLookup_setHint_of_ne h kv.1 kv.2 k hk.1
    · rfl

theorem hintLookup_mergeHints_mem (c h : List (String × String))
    (k v : String) (hnd : (c.map Prod.fst).Nodup)
    (hkv : (k, v) ∈ c) (hk : k ∈ h.map Prod.fst) :
    hintLookup (mergeHints h c) k = some v := by
  induction c generalizing h with
  | nil => simp at hkv
  | cons kv rest ih =>
    rw [List.map_cons, List.nodup_cons] at hnd
    rw [mergeHints_cons]
    rcases List.mem_cons.mp hkv with h1 | h1
    · subst h1
      rw [if_pos (by simpa using hk)]
      rw [hintLookup_mergeHints_not_mem rest _ k (by simpa using hnd.1)]
      exact hintLookup_setHint_self h k v hk
    · have hkne : kv.1 ≠ k := by
        intro he
        exact hnd.1 (he ▸ (List.mem_map.mpr ⟨(k, v), h1, rfl⟩))
      apply ih _ hnd.2 h1
      split
      · rw [setHint_keys]
        exact hk
      · exact hk

/-- C6, counterexample: a corrected hint whose value is the non-empty
whitespace string makes the claimed flag condition true (at least one
corrected value is a non-empty string) while the code leaves
`hints_were_corrected` false, because `any(h.strip() ...)` tests the
stripped value. -/
theorem hintsFlag_whitespace_counterexample :
    (" " : String) ≠ "" ∧
    (("0", " ") : String × String) ∈ [(("0" : String), (" " : String))] ∧
    hintsCorrectedFlag [("0", " ")] = false := by
  refine ⟨by decide, by simp, by decide⟩

/-- C6 amended: hints are merged per-index (the merged map has exactly the
original indices; indices absent from the correction map keep their
original hint; an index present in both gets the corrected value), and
`hints_were_corrected` is true iff at least one corrected value is
non-empty after stripping whitespace. -/
theorem hintMergeSemantics (hints corrected : List (String × String))
    (hnd : (corrected.map Prod.fst).Nodup) :
    (hintsCorrectedFlag corrected = true ↔
      ∃ kv ∈ corrected, pyStrip kv.2 ≠ "") ∧
    (mergeHints hints corrected).map Prod.fst = hints.map Prod.fst ∧
    (∀ k, k ∉ corrected.map Prod.fst →
      hintLookup (mergeHints hints corrected) k = hintLookup hints k) ∧
    (∀ k v, (k, v) ∈ corrected → k ∈ hints.map Prod.fst →
      hintLookup (mergeHints hints corrected) k = some v) := by
  refine ⟨?_, mergeHints_keys corrected hints,
    fun k hk => hintLookup_mergeHints_not_mem corrected hints k hk,
    fun k v hkv hk =>
      hintLookup_mergeHints_mem corrected hints k v hnd hkv hk⟩
  constructor
  · intro hf
    simp only [hintsCorrectedFlag, Bool.and_eq_true, List.any_eq_true] at hf
    obtain ⟨kv, hmem, hkv⟩ := hf.2
    refine ⟨kv, hmem, ?_⟩
    simpa using hkv
  · intro ⟨kv, hmem, hkv⟩
    simp only [hintsCorrectedFlag, Bool.and_eq_true, List.any_eq_true]
    constructor
    · simp only [Bool.not_eq_true']
      rw [List.isEmpty_eq_false_iff_exists_mem]
      exact ⟨kv, hmem⟩
    · exact ⟨kv, hmem, by simpa using hkv⟩

/-- Witness for C6 on a concrete hints map and correction map. -/
theorem hintMergeSemantics_witness :
    hintsCorrectedFlag [("1", "use induction")] = true ∧
    hintLookup (mergeHints [("0", "a"), ("1", "b")] [("1", "use induction")])
      "1" = some "use induction" ∧
    hintLookup (mergeHints [("0", "a"), ("1", "b")] [("1", "use induction")])
      "0" = some "a" := by
  obtain ⟨hiff, _, habsent, hmem⟩ := hintMergeSemantics
    [("0", "a"), ("1", "b")] [("1", "use induction")] (by simp)
  refine ⟨?_, ?_, ?_⟩
  · exact hiff.mpr ⟨("1", "use induction"), by simp, by decide⟩
  · exact hmem "1" "use induction" (by simp) (by simp)
  · have := habsent "0" (by simp)
    rw [this]
    rfl

/-- C2: for every attempt that reaches the equivalence-check stage the
result tag is `accepted` iff the final verdict (after any CAS override in
`CheckerAgent.validate`) is false; and an attempt whose initial checker
verdict is invalid is discarded with the checker's stated reason without
ever invoking the target model. -/
theorem acceptanceSemantics (cfg : PipeConfig) (env : PipeEnv)
    (subject topic : Option String) (seed : Option SeedProblem)
    (eng : EngineerOut) (parsed : ParsedChecker)
    (heng : env.engineer = .ok eng)
    (hchk : env.checkerInitialParsed = .ok parsed) :
    ((checkerValidateInitial parsed).valid = false →
      (afterSelect cfg env subject topic seed).2 = false ∧
      ∃ d, (afterSelect cfg env subject topic seed).1 =
          .ok (RTag.discarded, d) ∧
        d.rejectionReason = some (checkerValidateInitial parsed).reason) ∧
    (∀ tout fparsed, (checkerValidateInitial parsed).valid = true →
      env.target = .ok tout → env.finalParsed = .ok fparsed →
      ((∃ d, (afterSelect cfg env subject topic seed).1 =
          .ok (RTag.accepted, d)) ↔
        (checkerValidate .equivalenceCheck fparsed env.finalCas).valid =
          false)) := by
  constructor
  · intro hv
    unfold afterSelect
    rw [heng, hchk]
    dsimp only
    rw [if_pos hv]
    exact ⟨rfl, _, rfl, rfl⟩
  · intro tout fparsed hv ht hf
    unfold afterSelect
    rw [heng, hchk]
    dsimp only
    rw [if_neg (by simp [hv]), ht]
    dsimp only
    rw [hf]
    dsimp only
    by_cases hF : (checkerValidate .equivalenceCheck fparsed
        env.finalCas).valid = false
    · rw [if_pos hF]
      simp only [hF, iff_true]
      by_cases hs : cfg.useSearch = true
      · rw [if_pos hs]
        cases hsim : env.similarity with
        | ok score => exact ⟨_, rfl⟩
        | error m => exact ⟨_, rfl⟩
      · rw [if_neg hs]
        exact ⟨_, rfl⟩
    · rw [if_neg hF]
      constructor
      · rintro ⟨d, hd⟩
        exfalso
        simp only [Except.ok.injEq, Prod.mk.injEq] at hd
        exact RTag.noConfusion hd.1
      · intro hvf
        exact absurd hvf hF

/-- Concrete configuration for the pipeline witnesses. -/
def cfgW : PipeConfig :=
  { useSeedData := false, benchmarkName := "custom_seed"
    enablePrefiltering := false, useSearch := false }

/-- Environment in which the initial checker verdict is invalid. -/
def envInvalid : PipeEnv :=
  { preTry := .ok ()
    seedChoice := .error "unused"
    classify := .error "unused"
    selectSubject := .ok (some "algebra")
    selectTopic := .ok (some "group theory")
    engineer := .ok { problem := "P", answer := "A", hints := [("0", "h")] }
    checkerInitialParsed :=
      .ok { valid := false, reason := some "answer not justified"
            equivalenceConfidence := none, correctedHints := [] }
    target := .ok "target answer"
    finalParsed :=
      .ok { valid := true, reason := none
            equivalenceConfidence := none, correctedHints := [] }
    finalCas := .error "cas unavailable"
    similarity := .error "unused" }

/-- Witness for C2: with an invalid initial verdict the attempt is
discarded with the stated reason and the target model is not invoked. -/
theorem acceptanceSemantics_witness :
    (afterSelect cfgW envInvalid (some "algebra") (some "group theory")
      none).2 = false ∧
    ∃ d, (afterSelect cfgW envInvalid (some "algebra") (some "group theory")
        none).1 = .ok (RTag.discarded, d) ∧
      d.rejectionReason = some (checkerValidateInitial
        { valid := false, reason := some "answer not justified"
          equivalenceConfidence := none, correctedHints := [] }).reason :=
  (acceptanceSemantics cfgW envInvalid (some "algebra")
    (some "group theory") none
    { problem := "P", answer := "A", hints := [("0", "h")] }
    { valid := false, reason := some "answer not justified"
      equivalenceConfidence := none, correctedHints := [] }
    rfl rfl).1 rfl

theorem afterSelect_tag (cfg : PipeConfig) (env : PipeEnv)
    (subject topic : Option String) (seed : Option SeedProblem)
    (rt : RTag) (d : AttemptData) (tc : Bool)
    (h : afterSelect cfg env subject topic seed = (.ok (rt, d), tc)) :
    rt = RTag.accepted ∨ rt = RTag.discarded := by
  unfold afterSelect at h
  cases h1 : env.engineer with
  | error m => rw [h1] at h; simp at h
  | ok eng =>
    rw [h1] at h
    dsimp only at h
    cases h2 : env.checkerInitialParsed with
    | error m => rw [h2] at h; simp at h
    | ok parsed =>
      rw [h2] at h
      dsimp only at h
      split at h
      · right
        obtain ⟨h3, -⟩ := Prod.mk.injEq .. ▸ h
        exact ((Prod.mk.injEq .. ▸ (Except.ok.injEq .. ▸ h3)).1).symm
      · cases h4 : env.target with
        | error m => rw [h4] at h; simp at h
        | ok tout =>
          rw [h4] at h
          dsimp only at h
          cases h5 : env.finalParsed with
          | error m => rw [h5] at h; simp at h
          | ok fparsed =>
            rw [h5] at h
            dsimp only at h
            split at h
            · split at h
              · cases h6 : env.similarity with
                | ok score =>
                  rw [h6] at h
                  simp only [Prod.mk.injEq, Except.ok.injEq] at h
                  exact Or.inl h.1.1.symm
                | error m =>
                  rw [h6] at h
                  simp only [Prod.mk.injEq, Except.ok.injEq] at h
                  exact Or.inl h.1.1.symm
              · simp only [Prod.mk.injEq, Except.ok.injEq] at h
                exact Or.inl h.1.1.symm
            · simp only [Prod.mk.injEq, Except.ok.injEq] at h
              exact Or.inr h.1.1.symm

theorem pipeBody_tag (cfg : PipeConfig) (env : PipeEnv)
    (rt : RTag) (d : AttemptData) (tc : Bool)
    (h : pipeBody cfg env = (.ok (rt, d), tc)) :
    rt = RTag.accepted ∨ rt = RTag.discarded := by
  unfold pipeBody at h
  split at h
  · cases h1 : env.seedChoice with
    | error m => rw [h1] at h; simp at h
    | ok sp =>
      rw [h1] at h
      dsimp only at h
      cases h2 : env.classify with
      | error m => rw [h2] at h; simp at h
      | ok st =>
        rw [h2] at h
        dsimp only at h
        split at h
        · simp only [Prod.mk.injEq, Except.ok.injEq] at h
          exact Or.inr h.1.1.symm
        · exact afterSelect_tag cfg env st.1 st.2 (some sp) rt d tc h
  · cases h1 : env.selectSubject with
    | error m => rw [h1] at h; simp at h
    | ok subj =>
      rw [h1] at h
      dsimp only at h
      cases h2 : env.selectTopic with
      | error m => rw [h2] at h; simp at h
      | ok top =>
        rw [h2] at h
        dsimp only at h
        split at h
        · cases h3 : isProblemTooEasy subj top with
          | error m => rw [h3] at h; simp at h
          | ok b =>
            rw [h3] at h
            cases b with
            | true =>
              simp only [Prod.mk.injEq, Except.ok.injEq] at h
              exact Or.inr h.1.1.symm
            | false =>
              exact afterSelect_tag cfg env subj top none rt d tc h
        · exact afterSelect_tag cfg env subj top none rt d tc h

/-- C9: `_process_single_task` always returns a plain triple carrying the
attempt number; the tag is one of accepted / discarded / error; an
exception that escaped `_generate_and_validate_prompt` (one raised before
its `try`, e.g. while reading configuration) is converted at the task
boundary into an error outcome carrying the message; and an exception
raised inside the `try` is converted by the pipeline's own handler into
an error outcome carrying the message and the subject/topic bound at the
raise point.  No per-attempt exception reaches the submission/drain
loop. -/
theorem taskBoundaryConvertsExceptions (cfg : PipeConfig) (env : PipeEnv)
    (n : Nat) :
    (processSingleTask false (generateAndValidatePrompt cfg env).1 n).2.2
      = n ∧
    ((processSingleTask false (generateAndValidatePrompt cfg env).1 n).1 =
        RTag.accepted ∨
      (processSingleTask false (generateAndValidatePrompt cfg env).1 n).1 =
        RTag.discarded ∨
      (processSingleTask false (generateAndValidatePrompt cfg env).1 n).1 =
        RTag.error) ∧
    (∀ m, (generateAndValidatePrompt cfg env).1 = .error m →
      processSingleTask false (generateAndValidatePrompt cfg env).1 n =
        (RTag.error, .taskError m n, n)) ∧
    (∀ m subj top, (pipeBody cfg env).1 = .error (m, subj, top) →
      env.preTry = .ok () →
      (generateAndValidatePrompt cfg env).1 =
        .ok (RTag.error, { AttemptData.empty with
          subject := subj, topic := top, errorMsg := some m })) := by
  cases hpre : env.preTry with
  | error m0 =>
    have hg : (generateAndValidatePrompt cfg env).1 = .error m0 := by
      unfold generateAndValidatePrompt
      rw [hpre]
    refine ⟨by rw [hg]; rfl, by rw [hg]; right; right; rfl, ?_, ?_⟩
    · intro m hm
      rw [hg] at hm
      injection hm with h1
      subst h1
      rw [hg]
      rfl
    · intro m subj top hb hpre2
      exact Except.noConfusion hpre2
  | ok u =>
    rcases hpb : pipeBody cfg env with ⟨b1, b2⟩
    cases b1 with
    | ok r =>
      obtain ⟨rt, d⟩ := r
      have hg : (generateAndValidatePrompt cfg env).1 = .ok (rt, d) := by
        unfold generateAndValidatePrompt
        rw [hpre, hpb]
      have htag := pipeBody_tag cfg env rt d b2 hpb
      refine ⟨by rw [hg]; rfl, ?_, ?_, ?_⟩
      · rw [hg]
        rcases htag with h | h
        · exact Or.inl h
        · exact Or.inr (Or.inl h)
      · intro m hm
        rw [hg] at hm
        exact Except.noConfusion hm
      · intro m subj top hb hpre2
        dsimp only at hb
        exact Except.noConfusion hb
    | error te =>
      obtain ⟨m0, subj0, top0⟩ := te
      have hg : (generateAndValidatePrompt cfg env).1 =
          .ok (RTag.error, { AttemptData.empty with
            subject := subj0, topic := top0, errorMsg := some m0 }) := by
        unfold generateAndValidatePrompt
        rw [hpre, hpb]
      refine ⟨by rw [hg]; rfl, by rw [hg]; right; right; rfl, ?_, ?_⟩
      · intro m hm
        rw [hg] at hm
        exact Except.noConfusion hm
      · intro m subj top hb hpre2
        dsimp only at hb
        injection hb with h1
        obtain ⟨h2, h3, h4⟩ : m0 = m ∧ subj0 = subj ∧ top0 = top := by
          simpa using h1
        subst h2
        subst h3
        subst h4
        exact hg

/-- Environment whose pre-`try` section raises (a missing config key). -/
def envPreFail : PipeEnv :=
  { envInvalid with preTry := .error "KeyError: engineer_model" }

/-- Witness for C9: a pre-`try` exception becomes an error outcome with
the message and attempt number at the task boundary. -/
theorem taskBoundaryConvertsExceptions_witness :
    processSingleTask false (generateAndValidatePrompt cfgW envPreFail).1 7 =
      (RTag.error, .taskError "KeyError: engineer_model" 7, 7) :=
  (taskBoundaryConvertsExceptions cfgW envPreFail 7).2.2.1
    "KeyError: engineer_model" rfl

/-! ### ConcurrentProcessor.process_batch
(src/core/orchestration/concurrent_processor.py)

The task outcome for attempt number `n` is an oracle
`task : Nat → RTag × δ` (in the real system
`_process_single_task ∘ task_func`, which never raises - see
`taskBoundaryConvertsExceptions` - so `future.result()` never raises
either and the `except` around it is dead in this model).  Thread
scheduling is one `SchedChoice` per outer-loop iteration: the wall-clock
time of the `get_current_workers` call, which in-flight futures report
`done()` during the scan, and which future (if any) `as_completed` yields
within its 1-second timeout when the scan found none (`none` = timeout,
i.e. `continue`).  `record_task_result` runs inside the worker thread; it
is linearized at the drain of the corresponding future (this only
influences adaptation timing, which the scheduler controls anyway).
Futures still in flight when the loop exits are awaited by the executor
shutdown but their results are never read: the model never drains them.
`drainLog` is ghost instrumentation recording each `_update_results`
call. -/

/-- Mutable state of one `process_batch` run (futures are tracked by their
attempt numbers). -/
structure PBState (δ : Type) where
  futures : List Nat
  accepted : List δ
  discarded : List δ
  errors : List δ
  approvedCount : Nat
  attemptCounter : Nat
  stopFlag : Bool
  pool : AdaptiveThreadPool
  finished : Bool
  drainLog : List (Nat × RTag)

/-- State at entry of `process_batch` for a `ConcurrentProcessor` built
from configured `max_workers = w`. -/
def pbInit (δ : Type) (w interval : Nat) (targetRate t0 : Rat) :
    PBState δ :=
  { futures := [], accepted := [], discarded := [], errors := []
    approvedCount := 0, attemptCounter := 0, stopFlag := false
    pool := mkProcessorPool w interval targetRate t0
    finished := false, drainLog := [] }

/-- `ConcurrentProcessor._update_results`: append to the matching list
("stopped" and unknown tags are logged but appended nowhere). -/
def updateResults {δ : Type} (s : PBState δ) (rt : RTag) (d : δ)
    (n : Nat) : PBState δ :=
  match rt with
  | .accepted =>
    { s with accepted := s.accepted ++ [d]
             approvedCount := s.approvedCount + 1
             drainLog := s.drainLog ++ [(n, rt)] }
  | .discarded =>
    { s with discarded := s.discarded ++ [d]
             drainLog := s.drainLog ++ [(n, rt)] }
  | .error =>
    { s with errors := s.errors ++ [d]
             drainLog := s.drainLog ++ [(n, rt)] }
  | .stopped =>
    { s with drainLog := s.drainLog ++ [(n, rt)] }

/-- Drain one completed future: read its result, fold it into the result
lists, remove it from the in-flight list, and linearize the worker's
`record_task_result` call (skipped by the task when it observed the stop
signal). -/
def drainOne {δ : Type} (task : Nat → RTag × δ) (s : PBState δ)
    (n : Nat) : PBState δ :=
  let r := task n
  let s1 := updateResults s r.1 r.2 n
  { s1 with
    futures := s1.futures.erase n
    pool := if r.1 = RTag.stopped then s1.pool
      else recordTaskResult s1.pool (decide (r.1 = RTag.accepted)) }

/-- Drain a batch of completed futures in scan order. -/
def drainAll {δ : Type} (task : Nat → RTag × δ) (s : PBState δ)
    (ns : List Nat) : PBState δ :=
  ns.foldl (drainOne task) s

/-- Scheduler decisions for one outer-loop iteration. -/
structure SchedChoice where
  now : Rat
  doneAt : Nat → Bool
  firstDone : Option Nat

/-- One iteration of the `process_batch` while-loop: check the loop
condition, adapt the worker count, top the in-flight set up to
`current_workers * 2` fresh attempt numbers, break if nothing is in
flight, collect the futures the scheduler reports done (falling back to
the blocking `as_completed` wait, whose timeout is the `continue` case),
drain them, and signal stop once the target is reached. -/
def pbStep {δ : Type} (task : Nat → RTag × δ)
    (targetCount maxAttempts : Nat) (s : PBState δ) (c : SchedChoice) :
    PBState δ :=
  if s.finished then s
  else if ¬ (s.approvedCount < targetCount ∧ s.stopFlag = false ∧
      s.attemptCounter < maxAttempts) then
    { s with finished := true }
  else
    let g := getCurrentWorkers s.pool c.now
    let s0 := { s with pool := g.2 }
    let need := g.1 * 2 - s0.futures.length
    let s1 := { s0 with
      futures := s0.futures ++ List.range' (s0.attemptCounter + 1) need
      attemptCounter := s0.attemptCounter + need }
    if s1.futures = [] then { s1 with finished := true }
    else
      let scanned := s1.futures.filter c.doneAt
      let completed :=
        if scanned = [] then
          match c.firstDone with
          | some f => if f ∈ s1.futures then [f] else []
          | none => []
        else scanned
      let s2 := drainAll task s1 completed
      if targetCount ≤ s2.approvedCount then
        { s2 with stopFlag := true, finished := true }
      else s2

/-- A `process_batch` run under a schedule: fold the per-iteration steps
from the initial state. -/
def pbRun {δ : Type} (task : Nat → RTag × δ)
    (targetCount maxAttempts w interval : Nat) (targetRate t0 : Rat)
    (cs : List SchedChoice) : PBState δ :=
  cs.foldl (pbStep task targetCount maxAttempts) (pbInit δ w interval targetRate t0)

/-- Structural invariant of a `process_batch` state: no attempt number is
both in flight and drained or drained twice; in-flight and drained
attempt numbers were all actually launched; and the three result lists
together hold exactly the drained non-"stopped" results. -/
def pbInv {δ : Type} (s : PBState δ) : Prop :=
  ((s.drainLog.map Prod.fst) ++ s.futures).Nodup ∧
  (∀ n ∈ s.futures, 1 ≤ n ∧ n ≤ s.attemptCounter) ∧
  (∀ e ∈ s.drainLog, 1 ≤ e.1 ∧ e.1 ≤ s.attemptCounter) ∧
  s.accepted.length + s.discarded.length + s.errors.length =
    (s.drainLog.filter (fun e => decide (e.2 ≠ RTag.stopped))).length

theorem updateResults_futures {δ : Type} (s : PBState δ) (rt : RTag)
    (d : δ) (n : Nat) : (updateResults s rt d n).futures = s.futures := by
  cases rt <;> rfl

theorem updateResults_counter {δ : Type} (s : PBState δ) (rt : RTag)
    (d : δ) (n : Nat) :
    (updateResults s rt d n).attemptCounter = s.attemptCounter := by
  cases rt <;> rfl

theorem updateResults_log {δ : Type} (s : PBState δ) (rt : RTag)
    (d : δ) (n : Nat) :
    (updateResults s rt d n).drainLog = s.drainLog ++ [(n, rt)] := by
  cases rt <;> rfl

theorem updateResults_sum {δ : Type} (s : PBState δ) (rt : RTag)
    (d : δ) (n : Nat) :
    (updateResults s rt d n).accepted.length +
      (updateResults s rt d n).discarded.length +
      (updateResults s rt d n).errors.length =
    s.accepted.length + s.discarded.length + s.errors.length +
      (if rt = RTag.stopped then 0 else 1) := by
  cases rt <;> simp [updateResults] <;> omega

theorem drainOne_futures {δ : Type} (task : Nat → RTag × δ)
    (s : PBState δ) (n : Nat) :
    (drainOne task s n).futures = s.futures.erase n := by
  unfold drainOne
  dsimp only
  rw [updateResults_futures]

theorem drainOne_counter {δ : Type} (task : Nat → RTag × δ)
    (s : PBState δ) (n : Nat) :
    (drainOne task s n).attemptCounter = s.attemptCounter := by
  unfold drainOne
  dsimp only
  rw [updateResults_counter]

theorem drainOne_log {δ : Type} (task : Nat → RTag × δ)
    (s : PBState δ) (n : Nat) :
    (drainOne task s n).drainLog = s.drainLog ++ [(n, (task n).1)] := by
  unfold drainOne
  dsimp only
  rw [updateResults_log]

theorem drainOne_inv {δ : Type} (task : Nat → RTag × δ) (s : PBState δ)
    (n : Nat) (hn : n ∈ s.futures) (h : pbInv s) :
    pbInv (drainOne task s n) := by
  obtain ⟨hA, hB, hC, hD⟩ := h
  refine ⟨?_, ?_, ?_, ?_⟩
  · rw [drainOne_log, drainOne_futures, List.map_append]
    have h1 : s.futures.Perm (n :: s.futures.erase n) :=
      List.perm_cons_erase hn
    have hperm : (s.drainLog.map Prod.fst ++ s.futures).Perm
        (s.drainLog.map Prod.fst ++ List.map Prod.fst [(n, (task n).1)] ++
          s.futures.erase n) := by
      have h3 : s.drainLog.map Prod.fst ++
            List.map Prod.fst [(n, (task n).1)] ++ s.futures.erase n =
          s.drainLog.map Prod.fst ++ (n :: s.futures.erase n) := by simp
      rw [h3]
      exact List.Perm.append_left _ h1
    exact hperm.nodup hA
  · intro m hm
    rw [drainOne_futures] at hm
    rw [drainOne_counter]
    exact hB m (List.mem_of_mem_erase hm)
  · intro e he
    rw [drainOne_log] at he
    rw [drainOne_counter]
    rcases List.mem_append.mp he with h' | h'
    · exact hC e h'
    · have : e = (n, (task n).1) := by simpa using h'
      subst this
      exact hB n hn
  · have hsum := updateResults_sum s (task n).1 (task n).2 n
    have hlists : (drainOne task s n).accepted =
          (updateResults s (task n).1 (task n).2 n).accepted ∧
        (drainOne task s n).discarded =
          (updateResults s (task n).1 (task n).2 n).discarded ∧
        (drainOne task s n).errors =
          (updateResults s (task n).1 (task n).2 n).errors := ⟨rfl, rfl, rfl⟩
    rw [hlists.1, hlists.2.1, hlists.2.2, hsum, drainOne_log,
      List.filter_append, List.length_append, hD]
    by_cases hstop : (task n).1 = RTag.stopped
    · simp [hstop]
    · simp [hstop]

theorem drainAll_cons {δ : Type} (task : Nat → RTag × δ) (s : PBState δ)
    (n : Nat) (rest : List Nat) :
    drainAll task s (n :: rest) = drainAll task (drainOne task s n) rest :=
  rfl

theorem drainAll_inv {δ : Type} (task : Nat → RTag × δ) :
    ∀ (ns : List Nat) (s : PBState δ), pbInv s → ns.Nodup →
      (∀ n ∈ ns, n ∈ s.futures) → pbInv (drainAll task s ns) := by
  intro ns
  induction ns with
  | nil => intro s h _ _; exact h
  | cons n rest ih =>
    intro s h hnd hmem
    rw [drainAll_cons]
    obtain ⟨hnr, hndr⟩ := List.nodup_cons.mp hnd
    apply ih (drainOne task s n)
      (drainOne_inv task s n (hmem n (List.mem_cons_self n rest)) h) hndr
    intro m hm
    rw [drainOne_futures]
    have hne : m ≠ n := fun he => hnr (he ▸ hm)
    exact (List.mem_erase_of_ne hne).mpr
      (hmem m (List.mem_cons_of_mem _ hm))

theorem submitFresh_inv {δ : Type} (s : PBState δ) (need : Nat)
    (pool1 : AdaptiveThreadPool) (h : pbInv s) :
    pbInv { s with
      pool := pool1
      futures := s.futures ++ List.range' (s.attemptCounter + 1) need
      attemptCounter := s.attemptCounter + need } := by
  obtain ⟨hA, hB, hC, hD⟩ := h
  refine ⟨?_, ?_, ?_, ?_⟩
  · show (s.drainLog.map Prod.fst ++
      (s.futures ++ List.range' (s.attemptCounter + 1) need)).Nodup
    rw [← List.append_assoc]
    refine List.Nodup.append hA (List.nodup_range' _ _) ?_
    intro x hx hx'
    have hxr := List.mem_range'_1.mp hx'
    have hxb : x ≤ s.attemptCounter := by
      rcases List.mem_append.mp hx with h' | h'
      · obtain ⟨e, he, rfl⟩ := List.mem_map.mp h'
        exact (hC e he).2
      · exact (hB x h').2
    omega
  · intro m hm
    dsimp only at hm ⊢
    rcases List.mem_append.mp hm with h' | h'
    · have := hB m h'
      omega
    · have := List.mem_range'_1.mp h'
      omega
  · intro e he
    dsimp only at he ⊢
    have := hC e he
    omega
  · dsimp only
    exact hD

theorem pbInv_of_fields {δ : Type} (s t : PBState δ)
    (hf : t.futures = s.futures) (ha : t.accepted = s.accepted)
    (hd : t.discarded = s.discarded) (he : t.errors = s.errors)
    (hc : t.attemptCounter = s.attemptCounter)
    (hl : t.drainLog = s.drainLog) (h : pbInv s) : pbInv t := by
  unfold pbInv at h ⊢
  rw [hf, ha, hd, he, hc, hl]
  exact h

theorem pbStep_inv {δ : Type} (task : Nat → RTag × δ)
    (targetCount maxAttempts : Nat) (s : PBState δ) (c : SchedChoice)
    (h : pbInv s) : pbInv (pbStep task targetCount maxAttempts s c) := by
  have hsub := submitFresh_inv s
    ((getCurrentWorkers s.pool c.now).1 * 2 - s.futures.length)
    (getCurrentWorkers s.pool c.now).2 h
  have hfin : ∀ s2 : PBState δ, pbInv s2 →
      pbInv (if targetCount ≤ s2.approvedCount then
        { s2 with stopFlag := true, finished := true } else s2) := by
    intro s2 h2
    split
    · exact pbInv_of_fields s2 _ rfl rfl rfl rfl rfl rfl h2
    · exact h2
  have hfutnd : (s.futures ++ List.range' (s.attemptCounter + 1)
      ((getCurrentWorkers s.pool c.now).1 * 2 - s.futures.length)).Nodup :=
    hsub.1.of_append_right
  unfold pbStep
  split
  · exact h
  · split
    · exact pbInv_of_fields s _ rfl rfl rfl rfl rfl rfl h
    · dsimp only
      split
      · exact pbInv_of_fields _ _ rfl rfl rfl rfl rfl rfl hsub
      · split
        · cases hfd : c.firstDone with
          | none =>
            exact hfin _ hsub
          | some f =>
            dsimp only
            split
            · rename_i hfm
              refine hfin _ (drainAll_inv task [f] _ hsub
                (List.nodup_singleton f) ?_)
              intro m hm
              rw [List.mem_singleton.mp hm]
              exact hfm
            · exact hfin _ hsub
        · refine hfin _ (drainAll_inv task _ _ hsub (hfutnd.filter _) ?_)
          intro m hm
          exact List.mem_of_mem_filter hm

theorem pbRun_inv {δ : Type} (task : Nat → RTag × δ)
    (targetCount maxAttempts w interval : Nat) (targetRate t0 : Rat)
    (cs : List SchedChoice) :
    pbInv (pbRun task targetCount maxAttempts w interval targetRate t0 cs) := by
  have hinit : pbInv (pbInit δ w interval targetRate t0) := by
    refine ⟨?_, ?_, ?_, ?_⟩ <;> simp [pbInit]
  have hgen : ∀ (cs2 : List SchedChoice) (s : PBState δ), pbInv s →
      pbInv (cs2.foldl (pbStep task targetCount maxAttempts) s) := by
    intro cs2
    induction cs2 with
    | nil => intro s hs; exact hs
    | cons cc rest ih =>
      intro s hs
      exact ih _ (pbStep_inv task targetCount maxAttempts s cc hs)
  exact hgen cs _ hinit

theorem nodup_bounded_length (l : List Nat) (hnd : l.Nodup) (bound : Nat)
    (hb : ∀ x ∈ l, 1 ≤ x ∧ x ≤ bound) : l.length ≤ bound := by
  have hcard : l.toFinset.card = l.length := List.toFinset_card_of_nodup hnd
  have hsub : l.toFinset ⊆ Finset.Icc 1 bound := by
    intro x hx
    exact Finset.mem_Icc.mpr (hb x (List.mem_toFinset.mp hx))
  have hle := Finset.card_le_card hsub
  rw [hcard, Nat.card_Icc] at hle
  omega

/-- C1 amended: in every run of `process_batch`, no attempt number is ever
folded into the results twice, and `len(accepted) + len(discarded) +
len(errors)` equals the number of drained non-"stopped" results - which is
at most, but in general strictly less than, the number of launched
attempts: attempts still in flight when the loop exits and attempts that
observed the stop signal are dropped from all three lists. -/
theorem processBatchPartition {δ : Type} (task : Nat → RTag × δ)
    (targetCount maxAttempts w interval : Nat) (targetRate t0 : Rat)
    (cs : List SchedChoice) :
    ((pbRun task targetCount maxAttempts w interval targetRate t0
        cs).drainLog.map Prod.fst).Nodup ∧
    (pbRun task targetCount maxAttempts w interval targetRate t0
        cs).accepted.length +
      (pbRun task targetCount maxAttempts w interval targetRate t0
        cs).discarded.length +
      (pbRun task targetCount maxAttempts w interval targetRate t0
        cs).errors.length =
      ((pbRun task targetCount maxAttempts w interval targetRate t0
        cs).drainLog.filter (fun e => decide (e.2 ≠ RTag.stopped))).length ∧
    (pbRun task targetCount maxAttempts w interval targetRate t0
        cs).drainLog.length ≤
      (pbRun task targetCount maxAttempts w interval targetRate t0
        cs).attemptCounter := by
  obtain ⟨hA, hB, hC, hD⟩ :=
    pbRun_inv task targetCount maxAttempts w interval targetRate t0 cs
  refine ⟨hA.of_append_left, hD, ?_⟩
  have hlen := nodup_bounded_length
    ((pbRun task targetCount maxAttempts w interval targetRate t0
      cs).drainLog.map Prod.fst) hA.of_append_left
    (pbRun task targetCount maxAttempts w interval targetRate t0
      cs).attemptCounter ?_
  · simpa using hlen
  · intro x hx
    obtain ⟨e, he, rfl⟩ := List.mem_map.mp hx
    exact hC e he

/-- Always-accepting task oracle over attempt numbers. -/
def dropTask : Nat → RTag × Nat := fun n => (RTag.accepted, n)

/-- Schedule: at the single drain point only attempt 1 reports done. -/
def dropSched : List SchedChoice :=
  [{ now := 0, doneAt := fun n => decide (n = 1), firstDone := none }]

/-- A run with configured `max_workers = 2`, target 1, `max_attempts` 5,
under `dropSched`. -/
def dropRun : PBState Nat := pbRun dropTask 1 5 2 10 (3/10) 0 dropSched

/-- C1, counterexample: in this completed run 4 attempts are launched
(the submission loop fills `2 × current_workers` slots), only attempt 1
is drained before the stop signal, and the three returned lists hold one
result in total - `len(accepted) + len(discarded) + len(errors) = 1 ≠ 4 =
attemptsLaunched`, the three undrained in-flight attempts are silently
dropped. -/
theorem processBatch_partition_counterexample :
    dropRun.finished = true ∧ dropRun.stopFlag = true ∧
    dropRun.attemptCounter = 4 ∧
    dropRun.accepted.length + dropRun.discarded.length +
      dropRun.errors.length = 1 ∧
    dropRun.accepted.length + dropRun.discarded.length +
      dropRun.errors.length ≠ dropRun.attemptCounter := by
  decide

/-- Environment of the C3 scenario: engineer succeeds, initial checker
verdict valid, equivalence judge reports the target answer not
equivalent (so every attempt is accepted). -/
def envAccepted : PipeEnv :=
  { preTry := .ok ()
    seedChoice := .error "unused"
    classify := .error "unused"
    selectSubject := .ok (some "algebra")
    selectTopic := .ok (some "group theory")
    engineer := .ok { problem := "P", answer := "A", hints := [("0", "h")] }
    checkerInitialParsed :=
      .ok { valid := true, reason := none
            equivalenceConfidence := none, correctedHints := [] }
    target := .ok "wrong answer"
    finalParsed :=
      .ok { valid := false, reason := some "not equivalent"
            equivalenceConfidence := none, correctedHints := [] }
    finalCas := .error "cas unavailable"
    similarity := .error "unused" }

/-- The scenario task: the full per-attempt pipeline
(`_process_single_task` over `_generate_and_validate_prompt`) under
`envAccepted`. -/
def scenarioTask (n : Nat) : RTag × TaskData :=
  ((processSingleTask false
      (generateAndValidatePrompt cfgW envAccepted).1 n).1,
   (processSingleTask false
      (generateAndValidatePrompt cfgW envAccepted).1 n).2.1)

/-- The C3 run: target 1 accepted, `max_attempts` 5, default configured
`max_workers = 10`, under the schedule where only attempt 1 reports done
at the first drain. -/
def scenarioRun : PBState TaskData :=
  pbRun scenarioTask 1 5 10 10 (3/10) 0
    [{ now := 0, doneAt := fun n => decide (n = 1), firstDone := none }]

/-- C3, counterexample: the run terminates, but 20 attempts were launched
(the submission loop fills `2 × 10` slots before any result is drained
and ignores `max_attempts`), not 1. -/
theorem scenario_launches_twenty_not_one :
    scenarioRun.finished = true ∧
    scenarioRun.attemptCounter = 20 ∧
    scenarioRun.attemptCounter ≠ 1 := by
  decide

/-- C3 amended: with target 1, `max_attempts` 5 and default
`max_workers = 10`, under the all-accepting scenario the run launches
exactly `2 × 10 = 20` attempts in its first submission round, and under
the schedule where only attempt 1 completes before the drain it signals
stop and returns `accepted = [attempt 1]`, `discarded = []`,
`errors = []` (the other 19 launched attempts are dropped). -/
theorem scenarioRunOutcome :
    scenarioRun.finished = true ∧ scenarioRun.stopFlag = true ∧
    scenarioRun.attemptCounter = 20 ∧
    scenarioRun.accepted = [(scenarioTask 1).2] ∧
    scenarioRun.discarded = [] ∧ scenarioRun.errors = [] := by
  decide
